import Mathlib

/-! Shallow embedding of the stylelint rule function-calc-no-unspaced-operator
(src/lib/rules/function-calc-no-unspaced-operator/index.mjs), together with
proofs about its behaviour.  Token text is modelled as a list of characters;
JS string indices become list indices.  The postcss-value-parser token tree is
modelled by the VNode type below; the in-place mutations of the JS code are
modelled by explicit state passing (list update plus a running state holding
the needsFix flag and the reported diagnostics). -/

abbrev Str := List Char

/-- Message constructors of the rule (ruleMessages formatting is external
plumbing; the payload is the operator text the rule passes to it). -/
inductive Msg where
  | expectedBefore (op : Str)
  | expectedAfter (op : Str)
  | expectedOperatorBeforeSign (op : Str)
  deriving DecidableEq

/-- One reported problem.  The complain helper of the rule computes
endIndex = index + operator.length. -/
structure Diagnostic where
  message : Msg
  index : Nat
  endIndex : Nat
  deriving DecidableEq

/-- postcss-value-parser node kinds used by the rule: word, space and function
(name plus children).  The constructor other covers div and string nodes,
which the rule never treats as word, space or function. -/
inductive VNode where
  | word (value : Str) (sourceIndex : Nat)
  | space (value : Str) (sourceIndex : Nat)
  | func (value : Str) (sourceIndex : Nat) (nodes : List VNode)
  | other (value : Str) (sourceIndex : Nat)

/-- Per-declaration mutable state of the rule body: the needsFix flag and the
list of diagnostics reported so far (in report order). -/
structure St where
  needsFix : Bool
  diags : List Diagnostic
  deriving DecidableEq

/-- Run configuration: context.fix and the value-start offset of the current
declaration (declarationValueIndex decl). -/
structure Ctx where
  fix : Bool
  valueIndex : Nat

/-- Side marker passed to checkSpaceAroundOperator. -/
inductive Pos where
  | before
  | after
  deriving DecidableEq

/-- complain: append one diagnostic; endIndex = index + operator length. -/
def pushDiag (st : St) (m : Msg) (index len : Nat) : St :=
  ⟨st.needsFix, st.diags ++ [⟨m, index, index + len⟩]⟩

/-- JS spaceNode.value.search of a newline (the regex alternation of a bare
line feed and a carriage-return line-feed pair): index of the first position
where a line feed starts, or where a carriage return immediately followed by a
line feed starts. -/
def searchNewline : Str → Option Nat
  | [] => none
  | '\n' :: _ => some 0
  | '\r' :: '\n' :: _ => some 0
  | _ :: rest => (searchNewline rest).map Nat.succ

/-- JS value.search(OPERATOR_REGEX): index of the first plus or minus sign. -/
def searchOperator (s : Str) : Option Nat :=
  s.findIdx? fun c => c == '+' || c == '-'

/-- insertCharAtIndex from the rule source: slice before, char, slice after. -/
def insertCharAtIndex (s : Str) (i : Nat) (c : Char) : Str :=
  s.take i ++ c :: s.drop i

def isTrimmableChar (c : Char) : Bool :=
  c == ' ' || c == '\t' || c == '\n' || c == '\r'

/-- JS String.prototype.trim on the character sets reachable here. -/
def trimStr (s : Str) : Str :=
  ((s.dropWhile isTrimmableChar).reverse.dropWhile isTrimmableChar).reverse

/-- JS charAt wrapped into a one-character-or-empty string. -/
def charAtSingleton (s : Str) (i : Nat) : Str :=
  match s[i]? with
  | some c => [c]
  | none => []

/-- Truthiness test used for charBefore and charAfter: the character exists
(charAt did not return the empty string) and is not a space. -/
def charIsPresentNonSpace : Option Char → Bool
  | some c => c != ' '
  | none => false

/-- OPERATORS of the rule source: plus and minus. -/
def OPERATORS : List Str := [['+'], ['-']]

/-- ALL_OPERATORS of the rule source: plus, minus, star, slash. -/
def ALL_OPERATORS : List Str := OPERATORS ++ [['*'], ['/']]

/-- isOperator from the rule source: a word node whose whole text is a member
of the given operator set (defaulting to OPERATORS at use sites). -/
def isOperatorWith (operators : List Str) : Option VNode → Bool
  | some (VNode.word v _) => operators.contains v
  | _ => false

/-- A standalone plus or minus operator node. -/
def isOpNode (n : VNode) : Bool :=
  isOperatorWith OPERATORS (some n)

/-- isSingleSpace from the rule source. -/
def isSingleSpace : Option VNode → Bool
  | some (VNode.space v _) => v == [' ']
  | _ => false

/-- Modelled from the spec: isStandardSyntaxValue is an external collaborator
(lib/utils/isStandardSyntaxValue.mjs is not under src); per the spec it is
true unless the text is a non-standard placeholder or interpolation, modelled
here as a leading variable sigil. -/
def isStandardSyntaxValue (v : Str) : Bool :=
  match v with
  | '$' :: _ => false
  | '@' :: _ => false
  | _ => true

/-- Modelled from the spec: the externally supplied set of single-argument
math function names (lib/reference/functions.mjs is not under src); the spec
uses calc and min in its examples; membership is case-insensitive. -/
def MATH_FUNCS : List Str :=
  [['c','a','l','c'], ['m','i','n'], ['m','a','x'], ['c','l','a','m','p'],
   ['a','b','s'], ['s','i','g','n'], ['s','i','n'], ['c','o','s'],
   ['t','a','n'], ['a','s','i','n'], ['a','c','o','s'], ['a','t','a','n'],
   ['s','q','r','t'], ['e','x','p']]

def lowerStr (s : Str) : Str := s.map Char.toLower

/-- FUNC_NAMES_REGEX test: the function name equals one of the math function
names, case-insensitively (the regex is anchored on both sides). -/
def isMathFunctionName (s : Str) : Bool :=
  MATH_FUNCS.contains (lowerStr s)

/-- The message picked by checkSpaceAroundOperator for each side. -/
def spaceMessage : Pos → Str → Msg
  | Pos.before, op => Msg.expectedBefore op
  | Pos.after, op => Msg.expectedAfter op

/-- The replacement text assigned by the fix branch of
checkSpaceAroundOperator: a single space when the space text holds no
newline, otherwise the slice of the text starting at the first newline. -/
def fixedSpaceText (spaceValue : Str) : Str :=
  match searchNewline spaceValue with
  | none => [' ']
  | some i => spaceValue.drop i

/-- checkSpaceAroundOperator from the rule source.  The first component models
the in-place assignment to spaceNode.value: it is some new text exactly when
the JS code assigns (only in fix mode, and not when the space text starts with
a newline).  In check mode one diagnostic is reported, anchored at the
operator node sourceIndex. -/
def checkSpaceAroundOperator (ctx : Ctx) (st : St) (opValue : Str)
    (opSourceIndex : Nat) (spaceValue : Str) (position : Pos) :
    Option Str × St :=
  if searchNewline spaceValue = some 0 then (none, st)
  else if ctx.fix then
    (some (fixedSpaceText spaceValue), ⟨true, st.diags⟩)
  else
    (none,
     pushDiag st (spaceMessage position opValue)
       (ctx.valueIndex + opSourceIndex) opValue.length)

/-- One guarded call site of checkSpaceAroundOperator inside the operator
loop of the rule: the neighbour at the given index (none models the missing
neighbour of the first or last element) must be a space node whose text is not
exactly one space; the resulting assignment, if any, is written back into the
children list. -/
def sideCheck (ctx : Ctx) (opValue : Str) (opSourceIndex : Nat)
    (position : Pos) (nodes : List VNode) (st : St) (j : Option Nat) :
    List VNode × St :=
  match j with
  | none => (nodes, st)
  | some j =>
    match nodes[j]? with
    | some (VNode.space sv ssi) =>
      if sv == [' '] then (nodes, st)
      else
        match checkSpaceAroundOperator ctx st opValue opSourceIndex sv position with
        | (none, st1) => (nodes, st1)
        | (some nv, st1) => (nodes.set j (VNode.space nv ssi), st1)
    | _ => (nodes, st)

/-- One iteration of the operator loop of the rule at child index i: when the
child is a standalone operator, run the before check on the left neighbour and
then the after check on the right neighbour (reading the current, possibly
already rewritten, children list), and record that a standalone operator was
found. -/
def spacingStep (ctx : Ctx) (nodes : List VNode) (st : St) (found : Bool)
    (i : Nat) : List VNode × St × Bool :=
  match nodes[i]? with
  | some (VNode.word v si) =>
    if OPERATORS.contains v then
      let r1 := sideCheck ctx v si Pos.before nodes st
        (if i = 0 then none else some (i - 1))
      let r2 := sideCheck ctx v si Pos.after r1.1 r1.2 (some (i + 1))
      (r2.1, r2.2, true)
    else (nodes, st, found)
  | _ => (nodes, st, found)

/-- The operator loop, iterating child indices i, i+1, ... for the given
number of remaining steps (the JS for-of loop iterates the original length of
the children list; mutations never change the length). -/
def spacingLoopAux (ctx : Ctx) : Nat → Nat → List VNode → St → Bool →
    List VNode × St × Bool
  | 0, _, nodes, st, found => (nodes, st, found)
  | k + 1, i, nodes, st, found =>
    let r := spacingStep ctx nodes st found i
    spacingLoopAux ctx k (i + 1) r.1 r.2.1 r.2.2

/-- The whole operator loop over the children of one matched function. -/
def spacingLoop (ctx : Ctx) (nodes : List VNode) (st : St) :
    List VNode × St × Bool :=
  spacingLoopAux ctx nodes.length 0 nodes st false

/-- checkForOperatorInFirstNode from the rule source.  The boolean result is
the JS return value.  The assert on a missing first child together with the
word type guard is modelled from the spec: a children list that fails the
shape check is skipped silently (last match arm). -/
def checkForOperatorInFirstNode (ctx : Ctx) (st : St) (nodes : List VNode) :
    List VNode × St × Bool :=
  match nodes[0]? with
  | some (VNode.word v si) =>
    if isStandardSyntaxValue v = false then (nodes, st, false)
    else
      match searchOperator v with
      | none => (nodes, st, false)
      | some opIdx =>
        if opIdx = 0 then (nodes, st, false)
        else
          if charIsPresentNonSpace v[opIdx - 1]? &&
              charIsPresentNonSpace v[opIdx + 1]? then
            if ctx.fix then
              (nodes.set 0 (VNode.word
                 (insertCharAtIndex (insertCharAtIndex v (opIdx + 1) ' ') opIdx ' ') si),
               ⟨true, st.diags⟩, true)
            else
              (nodes,
               pushDiag
                 (pushDiag st (Msg.expectedBefore (charAtSingleton v opIdx))
                   (ctx.valueIndex + si + opIdx) (charAtSingleton v opIdx).length)
                 (Msg.expectedAfter (charAtSingleton v opIdx))
                 (ctx.valueIndex + si + opIdx + 1) (charAtSingleton v opIdx).length,
               true)
          else if charIsPresentNonSpace v[opIdx - 1]? then
            if ctx.fix then
              (nodes.set 0 (VNode.word (insertCharAtIndex v opIdx ' ') si),
               ⟨true, st.diags⟩, true)
            else
              (nodes,
               pushDiag st (Msg.expectedBefore (charAtSingleton v opIdx))
                 (ctx.valueIndex + si + opIdx) (charAtSingleton v opIdx).length,
               true)
          else (nodes, st, true)
  | _ => (nodes, st, false)

/-- JS negative Array.prototype.at: nodes.at with a negative argument, where
k is the magnitude. -/
def atNeg (nodes : List VNode) (k : Nat) : Option VNode :=
  if k ≤ nodes.length then nodes[nodes.length - k]? else none

/-- checkForOperatorInLastNode from the rule source.  The boolean result is
the JS return value.  The assert on a missing last child together with the
word type guard is modelled from the spec: a children list that fails the
shape check is skipped silently (last match arm).  The fix branch performs the
two insert-then-trim assignments of the source in order. -/
def checkForOperatorInLastNode (ctx : Ctx) (st : St) (nodes : List VNode) :
    List VNode × St × Bool :=
  if nodes.length = 1 then (nodes, st, false)
  else
    match atNeg nodes 1 with
    | some (VNode.word v si) =>
      match searchOperator v with
      | none => (nodes, st, false)
      | some opIdx =>
        if isOperatorWith ALL_OPERATORS (atNeg nodes 3) &&
            isSingleSpace (atNeg nodes 2) then
          (nodes, st, false)
        else if ctx.fix then
          (nodes.set (nodes.length - 1)
             (VNode.word
               (trimStr (insertCharAtIndex
                 (trimStr (insertCharAtIndex v (opIdx + 1) ' ')) opIdx ' ')) si),
           ⟨true, st.diags⟩, true)
        else
          (nodes,
           pushDiag st (Msg.expectedOperatorBeforeSign (charAtSingleton v opIdx))
             (ctx.valueIndex + si + opIdx) (charAtSingleton v opIdx).length,
           true)
    | _ => (nodes, st, false)

/-- The body of the walk callback for one matched math function: run the
operator loop over the children; when it found no standalone operator, run
checkForOperatorInFirstNode, and only when that returns false run
checkForOperatorInLastNode (the short-circuit or of the source). -/
def processMathFunction (ctx : Ctx) (st : St) (nodes : List VNode) :
    List VNode × St :=
  let r := spacingLoop ctx nodes st
  if r.2.2 then (r.1, r.2.1)
  else
    let f := checkForOperatorInFirstNode ctx r.2.1 r.1
    if f.2.2 then (f.1, f.2.1)
    else
      let l := checkForOperatorInLastNode ctx f.2.1 f.1
      (l.1, l.2.1)

mutual

/-- Number of nodes of a value tree node, itself included; used as walk fuel
(the walk visits every node exactly once, and rewrites performed by
processMathFunction never add or remove nodes). -/
def vnodeCount : VNode → Nat
  | VNode.func _ _ children => 1 + vnodeListCount children
  | _ => 1

/-- Number of nodes of a value tree. -/
def vnodeListCount : List VNode → Nat
  | [] => 0
  | n :: rest => vnodeCount n + vnodeListCount rest

end

/-- parsedValue.walk of postcss-value-parser specialised to the callback of
the rule: every node is visited in document order; the callback acts only on
function nodes whose name passes FUNC_NAMES_REGEX, and the walk always
recurses into the (possibly rewritten) children of every function node.  The
fuel argument only serves termination: one unit is spent per visited node, so
any fuel at least vnodeListCount of the list gives the walk of the source. -/
def walkListF (ctx : Ctx) : Nat → List VNode → St → List VNode × St
  | 0, nodes, st => (nodes, st)
  | _ + 1, [], st => ([], st)
  | fuel + 1, VNode.func name si children :: rest, st =>
    let r0 := if isMathFunctionName name then processMathFunction ctx st children
              else (children, st)
    let r1 := walkListF ctx fuel r0.1 r0.2
    let r2 := walkListF ctx fuel rest r1.2
    (VNode.func name si r1.1 :: r2.1, r2.2)
  | fuel + 1, n :: rest, st =>
    let r := walkListF ctx fuel rest st
    (n :: r.1, r.2)

/-- Run the walk of the rule over one tokenized declaration value. -/
def runOnParsedValue (fix : Bool) (valueIndex : Nat) (tree : List VNode) :
    List VNode × St :=
  walkListF ⟨fix, valueIndex⟩ (vnodeListCount tree) tree ⟨false, []⟩

/-- OPERATOR_REGEX.test on the raw declaration value. -/
def containsOperatorChar (s : Str) : Bool :=
  s.any fun c => c == '+' || c == '-'

/-- FUNC_CALLS_REGEX.test on the raw declaration value: some math function
name immediately followed by an opening parenthesis occurs somewhere,
case-insensitively. -/
def containsFuncCall (s : Str) : Bool :=
  (List.range (s.length + 1)).any fun i =>
    MATH_FUNCS.any fun f => ((lowerStr s).drop i).take (f.length + 1) == f ++ ['(']

/-- One CSS declaration as the rule sees it: the value text and the offset of
the value inside the declaration (declarationValueIndex). -/
structure Declaration where
  value : Str
  valueIndex : Nat

/-- Observable outcome of the rule on one declaration: the final value text,
whether setDeclarationValue was called, and the reported diagnostics. -/
structure RunOutcome where
  value : Str
  rewritten : Bool
  diags : List Diagnostic
  deriving DecidableEq

/-- The walkDecls body of the rule for one declaration.  tokenize and
serializeTree stand for the external postcss-value-parser collaborators
(valueParser and toString).  After the two cheap string gates, the walk runs
and the value is rewritten from the tree exactly when some fix set the
needsFix flag. -/
def processDecl (fix : Bool) (tokenize : Str → List VNode)
    (serializeTree : List VNode → Str) (d : Declaration) : RunOutcome :=
  if containsOperatorChar d.value = false then ⟨d.value, false, []⟩
  else if containsFuncCall d.value = false then ⟨d.value, false, []⟩
  else
    match runOnParsedValue fix d.valueIndex (tokenize d.value) with
    | (tree, st) =>
      if st.needsFix then ⟨serializeTree tree, true, st.diags⟩
      else ⟨d.value, false, st.diags⟩

/-- The child at index j is a standalone operator. -/
def isOpAt (nodes : List VNode) (j : Nat) : Bool :=
  match nodes[j]? with
  | some n => isOpNode n
  | none => false

/-- Relation between a children list and a rewritten version of it produced by
the operator loop: every position is either unchanged or a space node whose
text was rewritten (same kind, same sourceIndex). -/
def Preserves (a b : List VNode) : Prop :=
  ∀ j : Nat, b[j]? = a[j]? ∨
    ∃ sv nv ssi, a[j]? = some (VNode.space sv ssi) ∧ b[j]? = some (VNode.space nv ssi)

/-- Does the message come from the trailing-sign path? -/
def isSignMsg : Msg → Bool
  | Msg.expectedOperatorBeforeSign _ => true
  | _ => false

/-- Every diagnostic of the second state is either an old diagnostic of the
first state or a spacing message (not a trailing-sign message). -/
def SpacingExt (st st2 : St) : Prop :=
  ∀ d ∈ st2.diags, d ∈ st.diags ∨ isSignMsg d.message = false

/-- C8: a space token whose text begins with a newline, adjacent to a
standalone operator inside a matched math function, is never flagged and
never rewritten, in both check and fix mode: checkSpaceAroundOperator
returns no assignment and an unchanged state, and the guarded call site
leaves the children list and the state untouched. -/
theorem claim_C8_newline_start_exempt :
    ∀ (ctx : Ctx) (st : St) (opValue : Str) (opSourceIndex : Nat) (rest : Str)
      (pos : Pos),
      checkSpaceAroundOperator ctx st opValue opSourceIndex ('\n' :: rest) pos
        = (none, st) ∧
      ∀ (nodes : List VNode) (j ssi : Nat),
        nodes[j]? = some (VNode.space ('\n' :: rest) ssi) →
        sideCheck ctx opValue opSourceIndex pos nodes st (some j) = (nodes, st) := by
  intro ctx st opValue opSourceIndex rest pos
  have hc : checkSpaceAroundOperator ctx st opValue opSourceIndex ('\n' :: rest) pos
      = (none, st) := by
    unfold checkSpaceAroundOperator
    simp [searchNewline]
  refine ⟨hc, ?_⟩
  intro nodes j ssi h
  have hne : (('\n' :: rest : Str) == [' ']) = false := by
    rw [beq_eq_false_iff_ne]
    intro hcontra
    injection hcontra with h1 _
    exact absurd h1 (by decide)
  unfold sideCheck
  simp only [h, hne, hc]
  simp

/-- C8 witness at the concrete space text of the spec example. -/
theorem claim_C8_newline_start_exempt_witness :
    checkSpaceAroundOperator ⟨true, 0⟩ ⟨false, []⟩ ['+'] 9 ['\n', ' ', ' '] Pos.after
      = (none, ⟨false, []⟩) ∧
    ([VNode.word ['+'] 9, VNode.space ['\n', ' ', ' '] 10])[1]?
      = some (VNode.space ['\n', ' ', ' '] 10) ∧
    sideCheck ⟨true, 0⟩ ['+'] 9 Pos.after
      [VNode.word ['+'] 9, VNode.space ['\n', ' ', ' '] 10] ⟨false, []⟩ (some 1)
      = ([VNode.word ['+'] 9, VNode.space ['\n', ' ', ' '] 10], ⟨false, []⟩) :=
  ⟨(claim_C8_newline_start_exempt ⟨true, 0⟩ ⟨false, []⟩ ['+'] 9 [' ', ' '] Pos.after).1,
   rfl,
   (claim_C8_newline_start_exempt ⟨true, 0⟩ ⟨false, []⟩ ['+'] 9 [' ', ' '] Pos.after).2
     [VNode.word ['+'] 9, VNode.space ['\n', ' ', ' '] 10] 1 10 rfl⟩

/-- C3 counterexample: in fix mode, rewriting the space text with two leading
spaces, a newline and two trailing spaces yields the slice starting at the
newline, so the newline survives as the first character of the new text; the
claim instead predicts the text with everything up to and including the
newline removed (two spaces), which differs. -/
theorem claim_C3_counterexample :
    (checkSpaceAroundOperator ⟨true, 0⟩ ⟨false, []⟩ ['+'] 0
        [' ', ' ', '\n', ' ', ' '] Pos.before).1 = some ['\n', ' ', ' '] ∧
    (checkSpaceAroundOperator ⟨true, 0⟩ ⟨false, []⟩ ['+'] 0
        [' ', ' ', '\n', ' ', ' '] Pos.before).1 ≠ some [' ', ' '] :=
  ⟨rfl, by decide⟩

/-- C3 amended: in fix mode, for a space token adjacent to a standalone
operator whose text holds a newline at an index greater than zero, the token
text is rewritten to the slice of the original text starting at the first
newline (everything strictly before the newline is removed and the newline
survives); when the text holds no newline it is rewritten to exactly one
space. -/
theorem claim_C3_amended_fix_rewrites_space :
    ∀ (ctx : Ctx) (st : St) (opValue : Str) (opSourceIndex : Nat) (sp : Str)
      (pos : Pos),
      ctx.fix = true →
      (∀ i : Nat, searchNewline sp = some i → i ≠ 0 →
        checkSpaceAroundOperator ctx st opValue opSourceIndex sp pos
          = (some (sp.drop i), ⟨true, st.diags⟩)) ∧
      (searchNewline sp = none →
        checkSpaceAroundOperator ctx st opValue opSourceIndex sp pos
          = (some [' '], ⟨true, st.diags⟩)) := by
  intro ctx st opValue opSourceIndex sp pos hfix
  constructor
  · intro i hs hi
    unfold checkSpaceAroundOperator
    rw [hs]
    simp [hfix, hi, fixedSpaceText, hs]
  · intro hs
    unfold checkSpaceAroundOperator
    rw [hs]
    simp [hfix, fixedSpaceText, hs]

/-- C3 amended witness at the two concrete space texts of the spec example. -/
theorem claim_C3_amended_fix_rewrites_space_witness :
    searchNewline [' ', ' ', '\n', ' ', ' '] = some 2 ∧
    checkSpaceAroundOperator ⟨true, 0⟩ ⟨false, []⟩ ['+'] 0
        [' ', ' ', '\n', ' ', ' '] Pos.before
      = (some ['\n', ' ', ' '], ⟨true, []⟩) ∧
    searchNewline [' ', ' '] = none ∧
    checkSpaceAroundOperator ⟨true, 0⟩ ⟨false, []⟩ ['+'] 0 [' ', ' '] Pos.after
      = (some [' '], ⟨true, []⟩) :=
  ⟨rfl,
   (claim_C3_amended_fix_rewrites_space ⟨true, 0⟩ ⟨false, []⟩ ['+'] 0
      [' ', ' ', '\n', ' ', ' '] Pos.before rfl).1 2 rfl (by decide),
   rfl,
   (claim_C3_amended_fix_rewrites_space ⟨true, 0⟩ ⟨false, []⟩ ['+'] 0
      [' ', ' '] Pos.after rfl).2 rfl⟩

/-- C2: a matched math function whose children list fails the shape checks is
skipped silently.  The empty children list (reached for a value holding a
sign elsewhere, such as the value a-b calc()) leaves children and state
untouched in both modes, and the whole walk over the tokenized value of
a-b calc() reports nothing and changes nothing.  In this embedding every
operation is a total function, so no run can throw. -/
theorem claim_C2_malformed_skipped_silently :
    (∀ (ctx : Ctx) (st : St), processMathFunction ctx st [] = ([], st)) ∧
    (∀ b : Bool,
      runOnParsedValue b 0
        [VNode.word ['a', '-', 'b'] 0, VNode.space [' '] 3,
         VNode.func ['c', 'a', 'l', 'c'] 4 []]
        = ([VNode.word ['a', '-', 'b'] 0, VNode.space [' '] 3,
            VNode.func ['c', 'a', 'l', 'c'] 4 []],
           ⟨false, []⟩)) := by
  constructor
  · intro ctx st
    rfl
  · intro b
    cases b <;> rfl

/-- C1 counterexample: for the value calc(1px+1px) in check mode (value-start
offset zero, word sourceIndex five, operator index three), the rule reports
the expected-before diagnostic at index eight but the expected-after
diagnostic at index nine, not both at the operator index eight as the claim
states. -/
theorem claim_C1_counterexample :
    (runOnParsedValue false 0
        [VNode.func ['c', 'a', 'l', 'c'] 0
          [VNode.word ['1', 'p', 'x', '+', '1', 'p', 'x'] 5]]).2.diags
      = [⟨Msg.expectedBefore ['+'], 8, 9⟩, ⟨Msg.expectedAfter ['+'], 9, 10⟩] ∧
    ((runOnParsedValue false 0
        [VNode.func ['c', 'a', 'l', 'c'] 0
          [VNode.word ['1', 'p', 'x', '+', '1', 'p', 'x'] 5]]).2.diags.all
      fun d => d.index == 8) = false :=
  ⟨rfl, rfl⟩

/-- C6 counterexample: for the children of calc(10px -2) in check mode there
is no standalone operator, the leading-sign check examines the first child
(the list is non-empty) and returns false without flagging, and the
trailing-sign check nevertheless runs and reports the sign diagnostic —
contradicting the claim that after the leading-sign check has examined the
first child the trailing-sign check never also runs. -/
theorem claim_C6_counterexample :
    ([VNode.word ['1', '0', 'p', 'x'] 5, VNode.space [' '] 9,
      VNode.word ['-', '2'] 10].any isOpNode) = false ∧
    ([VNode.word ['1', '0', 'p', 'x'] 5, VNode.space [' '] 9,
      VNode.word ['-', '2'] 10].length) = 3 ∧
    (checkForOperatorInFirstNode ⟨false, 0⟩ ⟨false, []⟩
      [VNode.word ['1', '0', 'p', 'x'] 5, VNode.space [' '] 9,
       VNode.word ['-', '2'] 10]).2.2 = false ∧
    (processMathFunction ⟨false, 0⟩ ⟨false, []⟩
      [VNode.word ['1', '0', 'p', 'x'] 5, VNode.space [' '] 9,
       VNode.word ['-', '2'] 10]).2.diags
      = [⟨Msg.expectedOperatorBeforeSign ['-'], 10, 11⟩] :=
  ⟨rfl, rfl, rfl, rfl⟩

/-- C7: in a matched math function with no standalone operator, at least two
children and a last word child holding a sign, a standalone
multiply/divide/plus/minus word two positions before the end together with a
single-space child one position before the end makes the trailing-sign check
return without reporting or fixing; in particular the children of
calc(10px * -2) produce zero diagnostics. -/
theorem claim_C7_unary_sign_after_operator :
    (∀ (ctx : Ctx) (st : St) (nodes : List VNode) (v : Str) (si k : Nat),
      2 ≤ nodes.length →
      atNeg nodes 1 = some (VNode.word v si) →
      searchOperator v = some k →
      isOperatorWith ALL_OPERATORS (atNeg nodes 3) = true →
      isSingleSpace (atNeg nodes 2) = true →
      checkForOperatorInLastNode ctx st nodes = (nodes, st, false)) ∧
    runOnParsedValue false 0
      [VNode.func ['c', 'a', 'l', 'c'] 0
        [VNode.word ['1', '0', 'p', 'x'] 5, VNode.space [' '] 9,
         VNode.word ['*'] 10, VNode.space [' '] 11, VNode.word ['-', '2'] 12]]
      = ([VNode.func ['c', 'a', 'l', 'c'] 0
          [VNode.word ['1', '0', 'p', 'x'] 5, VNode.space [' '] 9,
           VNode.word ['*'] 10, VNode.space [' '] 11, VNode.word ['-', '2'] 12]],
         ⟨false, []⟩) := by
  constructor
  · intro ctx st nodes v si k h2 hlast hsearch hop hsp
    have hne1 : ¬ nodes.length = 1 := by omega
    unfold checkForOperatorInLastNode
    simp only [hlast, hsearch, hop, hsp, if_neg hne1]
    simp
  · rfl

/-- C7 witness at the children of calc(10px * -2). -/
theorem claim_C7_unary_sign_after_operator_witness :
    2 ≤ ([VNode.word ['1', '0', 'p', 'x'] 5, VNode.space [' '] 9,
          VNode.word ['*'] 10, VNode.space [' '] 11,
          VNode.word ['-', '2'] 12] : List VNode).length ∧
    searchOperator ['-', '2'] = some 0 ∧
    checkForOperatorInLastNode ⟨false, 0⟩ ⟨false, []⟩
      [VNode.word ['1', '0', 'p', 'x'] 5, VNode.space [' '] 9,
       VNode.word ['*'] 10, VNode.space [' '] 11, VNode.word ['-', '2'] 12]
      = ([VNode.word ['1', '0', 'p', 'x'] 5, VNode.space [' '] 9,
          VNode.word ['*'] 10, VNode.space [' '] 11, VNode.word ['-', '2'] 12],
         ⟨false, []⟩, false) :=
  ⟨by decide, rfl,
   (claim_C7_unary_sign_after_operator.1 ⟨false, 0⟩ ⟨false, []⟩
     [VNode.word ['1', '0', 'p', 'x'] 5, VNode.space [' '] 9,
      VNode.word ['*'] 10, VNode.space [' '] 11, VNode.word ['-', '2'] 12]
     ['-', '2'] 12 0 (by decide) rfl rfl rfl rfl)⟩

lemma isOpAt_eq_false_of_any_false {nodes : List VNode}
    (h : nodes.any isOpNode = false) (j : Nat) : isOpAt nodes j = false := by
  unfold isOpAt
  cases hj : nodes[j]? with
  | none => rfl
  | some n =>
    have hm : n ∈ nodes := List.getElem?_mem hj
    have := List.any_eq_false.mp h n hm
    simpa using this

lemma spacingStep_of_not_op {ctx : Ctx} {nodes : List VNode} {st : St}
    {found : Bool} {i : Nat} (h : isOpAt nodes i = false) :
    spacingStep ctx nodes st found i = (nodes, st, found) := by
  unfold spacingStep
  unfold isOpAt at h
  cases hj : nodes[i]? with
  | none => simp
  | some n =>
    rw [hj] at h
    cases n with
    | word v si =>
      simp only [isOpNode, isOperatorWith] at h
      have hmem : ¬ v ∈ OPERATORS := by simpa using h
      simp [hj, hmem]
    | space v si => simp
    | func v si ch => simp
    | other v si => simp

lemma spacingLoopAux_of_no_op {ctx : Ctx} {nodes : List VNode} {st : St}
    {found : Bool} (h : ∀ j, isOpAt nodes j = false) :
    ∀ k i, spacingLoopAux ctx k i nodes st found = (nodes, st, found) := by
  intro k
  induction k with
  | zero => intro i; rfl
  | succ k ih =>
    intro i
    unfold spacingLoopAux
    simp only [spacingStep_of_not_op (h i)]
    exact ih (i + 1)

lemma spacingLoop_of_no_op {ctx : Ctx} {nodes : List VNode} {st : St}
    (h : nodes.any isOpNode = false) :
    spacingLoop ctx nodes st = (nodes, st, false) := by
  unfold spacingLoop
  exact spacingLoopAux_of_no_op (isOpAt_eq_false_of_any_false h) _ _

lemma preserves_refl (a : List VNode) : Preserves a a := fun _ => Or.inl rfl

lemma preserves_trans {a b c : List VNode} (h1 : Preserves a b)
    (h2 : Preserves b c) : Preserves a c := by
  intro j
  rcases h2 j with hcb | ⟨sv, nv, ssi, hb, hc⟩
  · rcases h1 j with hba | ⟨sv, nv, ssi, ha, hb⟩
    · exact Or.inl (hcb.trans hba)
    · exact Or.inr ⟨sv, nv, ssi, ha, hcb.trans hb⟩
  · rcases h1 j with hba | ⟨sv2, nv2, ssi2, ha2, hb2⟩
    · exact Or.inr ⟨sv, nv, ssi, hba ▸ hb, hc⟩
    · rw [hb2] at hb
      injection hb with hb
      injection hb with hbv hbs
      subst hbv
      subst hbs
      exact Or.inr ⟨sv2, nv, ssi2, ha2, hc⟩

lemma preserves_word {a b : List VNode} (h : Preserves a b) {j : Nat}
    {v : Str} {si : Nat} (hw : a[j]? = some (VNode.word v si)) :
    b[j]? = some (VNode.word v si) := by
  rcases h j with hba | ⟨sv, nv, ssi, ha, _⟩
  · exact hba.trans hw
  · rw [hw] at ha
    injection ha with ha
    cases ha

lemma preserves_isOpAt {a b : List VNode} (h : Preserves a b) (j : Nat) :
    isOpAt b j = isOpAt a j := by
  unfold isOpAt
  rcases h j with hba | ⟨sv, nv, ssi, ha, hb⟩
  · rw [hba]
  · rw [ha, hb]
    rfl

lemma preserves_set_space {nodes : List VNode} {j : Nat} {sv nv : Str}
    {ssi : Nat} (h : nodes[j]? = some (VNode.space sv ssi)) :
    Preserves nodes (nodes.set j (VNode.space nv ssi)) := by
  intro j2
  by_cases hj : j = j2
  · subst hj
    have hlt : j < nodes.length := by
      rcases List.getElem?_eq_some_iff.mp h with ⟨hlt, _⟩
      exact hlt
    exact Or.inr ⟨sv, nv, ssi, h, List.getElem?_set_self hlt⟩
  · exact Or.inl (List.getElem?_set_ne hj)

lemma sideCheck_preserves (ctx : Ctx) (opValue : Str) (opSourceIndex : Nat)
    (position : Pos) (nodes : List VNode) (st : St) (j : Option Nat) :
    Preserves nodes (sideCheck ctx opValue opSourceIndex position nodes st j).1 := by
  unfold sideCheck
  cases j with
  | none => exact preserves_refl nodes
  | some j =>
    cases hj : nodes[j]? with
    | none => simp [hj]; exact preserves_refl nodes
    | some n =>
      cases n with
      | space sv ssi =>
        simp only [hj]
        by_cases hsp : (sv == [' ']) = true
        · simp [hsp]; exact preserves_refl nodes
        · simp only [Bool.not_eq_true] at hsp
          simp only [hsp]
          cases hcs : checkSpaceAroundOperator ctx st opValue opSourceIndex sv position with
          | mk fst snd =>
            cases fst with
            | none => simp; exact preserves_refl nodes
            | some nv => simp; exact preserves_set_space hj
      | word v si => simp [hj]; exact preserves_refl nodes
      | func v si ch => simp [hj]; exact preserves_refl nodes
      | other v si => simp [hj]; exact preserves_refl nodes

lemma spacingStep_preserves (ctx : Ctx) (nodes : List VNode) (st : St)
    (found : Bool) (i : Nat) :
    Preserves nodes (spacingStep ctx nodes st found i).1 := by
  unfold spacingStep
  cases hj : nodes[i]? with
  | none => simp; exact preserves_refl nodes
  | some n =>
    cases n with
    | word v si =>
      simp only []
      by_cases hmem : v ∈ OPERATORS
      · have hc : OPERATORS.contains v = true := by simpa using hmem
        simp only [hc, if_true]
        exact preserves_trans
          (sideCheck_preserves ctx v si Pos.before nodes st
            (if i = 0 then none else some (i - 1)))
          (sideCheck_preserves ctx v si Pos.after _ _ (some (i + 1)))
      · have hc : OPERATORS.contains v = false := by simpa using hmem
        simp only [hc]
        simp
        exact preserves_refl nodes
    | space v si => simp; exact preserves_refl nodes
    | func v si ch => simp; exact preserves_refl nodes
    | other v si => simp; exact preserves_refl nodes

lemma spacingLoopAux_preserves (ctx : Ctx) :
    ∀ (k i : Nat) (nodes : List VNode) (st : St) (found : Bool),
      Preserves nodes (spacingLoopAux ctx k i nodes st found).1 := by
  intro k
  induction k with
  | zero => intro i nodes st found; exact preserves_refl nodes
  | succ k ih =>
    intro i nodes st found
    unfold spacingLoopAux
    exact preserves_trans (spacingStep_preserves ctx nodes st found i)
      (ih (i + 1) _ _ _)

lemma spacingLoop_preserves (ctx : Ctx) (nodes : List VNode) (st : St) :
    Preserves nodes (spacingLoop ctx nodes st).1 :=
  spacingLoopAux_preserves ctx nodes.length 0 nodes st false

lemma spacingStep_found_mono (ctx : Ctx) (nodes : List VNode) (st : St)
    (i : Nat) : (spacingStep ctx nodes st true i).2.2 = true := by
  unfold spacingStep
  cases hj : nodes[i]? with
  | none => rfl
  | some n =>
    cases n with
    | word v si =>
      simp only []
      by_cases hmem : v ∈ OPERATORS
      · have hc : OPERATORS.contains v = true := by simpa using hmem
        simp only [hc, if_true]
      · have hc : OPERATORS.contains v = false := by simpa using hmem
        simp only [hc]
        simp
    | space v si => rfl
    | func v si ch => rfl
    | other v si => rfl

lemma spacingLoopAux_found_mono (ctx : Ctx) :
    ∀ (k i : Nat) (nodes : List VNode) (st : St),
      (spacingLoopAux ctx k i nodes st true).2.2 = true := by
  intro k
  induction k with
  | zero => intro i nodes st; rfl
  | succ k ih =>
    intro i nodes st
    unfold spacingLoopAux
    simp only []
    rw [spacingStep_found_mono ctx nodes st i]
    exact ih (i + 1) _ _

lemma spacingStep_found_of_op {ctx : Ctx} {nodes : List VNode} {st : St}
    {found : Bool} {i : Nat} (h : isOpAt nodes i = true) :
    (spacingStep ctx nodes st found i).2.2 = true := by
  unfold spacingStep
  unfold isOpAt at h
  cases hj : nodes[i]? with
  | none => rw [hj] at h; simp at h
  | some n =>
    rw [hj] at h
    cases n with
    | word v si =>
      simp only [isOpNode, isOperatorWith] at h
      simp only []
      simp only [h, if_true]
    | space v si => simp [isOpNode, isOperatorWith] at h
    | func v si ch => simp [isOpNode, isOperatorWith] at h
    | other v si => simp [isOpNode, isOperatorWith] at h

lemma spacingLoopAux_found_of_op (ctx : Ctx) :
    ∀ (k i : Nat) (nodes : List VNode) (st : St) (found : Bool) (j : Nat),
      i ≤ j → j < i + k → isOpAt nodes j = true →
      (spacingLoopAux ctx k i nodes st found).2.2 = true := by
  intro k
  induction k with
  | zero =>
    intro i nodes st found j h1 h2 _
    omega
  | succ k ih =>
    intro i nodes st found j h1 h2 hop
    unfold spacingLoopAux
    simp only []
    by_cases hji : j = i
    · subst hji
      rw [spacingStep_found_of_op hop]
      exact spacingLoopAux_found_mono ctx k (j + 1) _ _
    · have hlt : i + 1 ≤ j := by omega
      have hops : isOpAt (spacingStep ctx nodes st found i).1 j = true := by
        rw [preserves_isOpAt (spacingStep_preserves ctx nodes st found i) j]
        exact hop
      exact ih (i + 1) _ _ _ j hlt (by omega) hops

lemma spacingLoop_found_of_any {ctx : Ctx} {nodes : List VNode} {st : St}
    (h : nodes.any isOpNode = true) :
    (spacingLoop ctx nodes st).2.2 = true := by
  rcases List.any_eq_true.mp h with ⟨n, hn, hop⟩
  rcases List.getElem_of_mem hn with ⟨j, hlt, he⟩
  have hopat : isOpAt nodes j = true := by
    unfold isOpAt
    rw [List.getElem?_eq_getElem hlt, he]
    exact hop
  exact spacingLoopAux_found_of_op ctx nodes.length 0 nodes st false j
    (Nat.zero_le j) (by omega) hopat

lemma spacingExt_refl (st : St) : SpacingExt st st := fun _ hd => Or.inl hd

lemma spacingExt_trans {a b c : St} (h1 : SpacingExt a b) (h2 : SpacingExt b c) :
    SpacingExt a c := fun d hd => (h2 d hd).elim (fun hb => h1 d hb) Or.inr

lemma csao_spacingExt (ctx : Ctx) (st : St) (opValue : Str)
    (opSourceIndex : Nat) (sp : Str) (pos : Pos) :
    SpacingExt st (checkSpaceAroundOperator ctx st opValue opSourceIndex sp pos).2 := by
  unfold checkSpaceAroundOperator
  by_cases h0 : searchNewline sp = some 0
  · simp only [h0, if_true]
    exact spacingExt_refl st
  · rw [if_neg h0]
    by_cases hf : ctx.fix = true
    · simp only [hf, if_true]
      intro d hd
      exact Or.inl hd
    · have hf2 : ctx.fix = false := by simpa using hf
      simp only [hf2]
      simp only [Bool.false_eq_true, if_false]
      intro d hd
      unfold pushDiag at hd
      rcases List.mem_append.mp hd with hmem | hmem
      · exact Or.inl hmem
      · right
        have : d = ⟨spaceMessage pos opValue,
            ctx.valueIndex + opSourceIndex,
            ctx.valueIndex + opSourceIndex + opValue.length⟩ := by
          simpa using hmem
        subst this
        cases pos <;> rfl

lemma sideCheck_spacingExt (ctx : Ctx) (opValue : Str) (opSourceIndex : Nat)
    (position : Pos) (nodes : List VNode) (st : St) (j : Option Nat) :
    SpacingExt st (sideCheck ctx opValue opSourceIndex position nodes st j).2 := by
  unfold sideCheck
  cases j with
  | none => exact spacingExt_refl st
  | some j =>
    cases hj : nodes[j]? with
    | none => simp only [hj]; exact spacingExt_refl st
    | some n =>
      cases n with
      | space sv ssi =>
        simp only [hj]
        by_cases hsp : (sv == [' ']) = true
        · simp only [hsp, if_true]
          exact spacingExt_refl st
        · simp only [Bool.not_eq_true] at hsp
          simp only [hsp]
          simp only [Bool.false_eq_true, if_false]
          cases hcs : checkSpaceAroundOperator ctx st opValue opSourceIndex sv position with
          | mk fst snd =>
            have hext := csao_spacingExt ctx st opValue opSourceIndex sv position
            rw [hcs] at hext
            cases fst with
            | none => simpa using hext
            | some nv => simpa using hext
      | word v si => simp only [hj]; exact spacingExt_refl st
      | func v si ch => simp only [hj]; exact spacingExt_refl st
      | other v si => simp only [hj]; exact spacingExt_refl st

lemma spacingStep_spacingExt (ctx : Ctx) (nodes : List VNode) (st : St)
    (found : Bool) (i : Nat) :
    SpacingExt st (spacingStep ctx nodes st found i).2.1 := by
  unfold spacingStep
  cases hj : nodes[i]? with
  | none => exact spacingExt_refl st
  | some n =>
    cases n with
    | word v si =>
      simp only []
      by_cases hmem : v ∈ OPERATORS
      · have hc : OPERATORS.contains v = true := by simpa using hmem
        simp only [hc, if_true]
        exact spacingExt_trans
          (sideCheck_spacingExt ctx v si Pos.before nodes st
            (if i = 0 then none else some (i - 1)))
          (sideCheck_spacingExt ctx v si Pos.after _ _ (some (i + 1)))
      · have hc : OPERATORS.contains v = false := by simpa using hmem
        simp only [hc]
        simp
        exact spacingExt_refl st
    | space v si => exact spacingExt_refl st
    | func v si ch => exact spacingExt_refl st
    | other v si => exact spacingExt_refl st

lemma spacingLoopAux_spacingExt (ctx : Ctx) :
    ∀ (k i : Nat) (nodes : List VNode) (st : St) (found : Bool),
      SpacingExt st (spacingLoopAux ctx k i nodes st found).2.1 := by
  intro k
  induction k with
  | zero => intro i nodes st found; exact spacingExt_refl st
  | succ k ih =>
    intro i nodes st found
    unfold spacingLoopAux
    exact spacingExt_trans (spacingStep_spacingExt ctx nodes st found i)
      (ih (i + 1) _ _ _)

lemma spacingLoop_spacingExt (ctx : Ctx) (nodes : List VNode) (st : St) :
    SpacingExt st (spacingLoop ctx nodes st).2.1 :=
  spacingLoopAux_spacingExt ctx nodes.length 0 nodes st false

lemma checkForOperatorInFirstNode_cases (ctx : Ctx) (st : St)
    (nodes : List VNode) :
    (checkForOperatorInFirstNode ctx st nodes).2.2 = true ∨
    checkForOperatorInFirstNode ctx st nodes = (nodes, st, false) := by
  unfold checkForOperatorInFirstNode
  repeat' split
  all_goals simp

/-- C5: when at least one direct child of a matched math function is a
standalone operator, processing the function is exactly the operator-spacing
loop: the glued-sign checks never run, every word child keeps its text, and
every diagnostic produced is a spacing message (never the trailing-sign
message). -/
theorem claim_C5_standalone_operator_skips_glued_checks :
    ∀ (ctx : Ctx) (st : St) (nodes : List VNode),
      nodes.any isOpNode = true →
      processMathFunction ctx st nodes
        = ((spacingLoop ctx nodes st).1, (spacingLoop ctx nodes st).2.1) ∧
      (∀ (j si : Nat) (v : Str), nodes[j]? = some (VNode.word v si) →
        (processMathFunction ctx st nodes).1[j]? = some (VNode.word v si)) ∧
      (∀ d ∈ (processMathFunction ctx st nodes).2.diags,
        d ∈ st.diags ∨ isSignMsg d.message = false) := by
  intro ctx st nodes h
  have hfull : processMathFunction ctx st nodes
      = ((spacingLoop ctx nodes st).1, (spacingLoop ctx nodes st).2.1) := by
    unfold processMathFunction
    simp only [spacingLoop_found_of_any h, if_true]
  refine ⟨hfull, ?_, ?_⟩
  · intro j si v hw
    rw [hfull]
    exact preserves_word (spacingLoop_preserves ctx nodes st) hw
  · intro d hd
    rw [hfull] at hd
    exact spacingLoop_spacingExt ctx nodes st d hd

/-- C5 witness at the children of calc(1px + 2px-3px): the standalone plus
makes processing equal to the spacing loop alone, so the glued minus inside
the last word is ignored. -/
theorem claim_C5_standalone_operator_skips_glued_checks_witness :
    ([VNode.word ['1', 'p', 'x'] 5, VNode.space [' '] 8, VNode.word ['+'] 9,
      VNode.space [' '] 10,
      VNode.word ['2', 'p', 'x', '-', '3', 'p', 'x'] 11].any isOpNode) = true ∧
    processMathFunction ⟨false, 0⟩ ⟨false, []⟩
      [VNode.word ['1', 'p', 'x'] 5, VNode.space [' '] 8, VNode.word ['+'] 9,
       VNode.space [' '] 10, VNode.word ['2', 'p', 'x', '-', '3', 'p', 'x'] 11]
      = ((spacingLoop ⟨false, 0⟩
           [VNode.word ['1', 'p', 'x'] 5, VNode.space [' '] 8, VNode.word ['+'] 9,
            VNode.space [' '] 10, VNode.word ['2', 'p', 'x', '-', '3', 'p', 'x'] 11]
           ⟨false, []⟩).1,
         (spacingLoop ⟨false, 0⟩
           [VNode.word ['1', 'p', 'x'] 5, VNode.space [' '] 8, VNode.word ['+'] 9,
            VNode.space [' '] 10, VNode.word ['2', 'p', 'x', '-', '3', 'p', 'x'] 11]
           ⟨false, []⟩).2.1) :=
  ⟨rfl,
   (claim_C5_standalone_operator_skips_glued_checks ⟨false, 0⟩ ⟨false, []⟩
     [VNode.word ['1', 'p', 'x'] 5, VNode.space [' '] 8, VNode.word ['+'] 9,
      VNode.space [' '] 10, VNode.word ['2', 'p', 'x', '-', '3', 'p', 'x'] 11]
     rfl).1⟩

/-- C6 amended: for a matched math function with no standalone operator, the
trailing-sign check is skipped exactly when the leading-sign check qualified
(returned true: first child is a standard-syntax word with a sign at index
greater than zero), whether or not it flagged; when the leading-sign check
returns false it has reported nothing and fixed nothing, and the
trailing-sign check then runs.  At most one of the two checks can report or
fix per function. -/
theorem claim_C6_amended_first_check_wins :
    ∀ (ctx : Ctx) (st : St) (nodes : List VNode),
      nodes.any isOpNode = false →
      ((checkForOperatorInFirstNode ctx st nodes).2.2 = true →
        processMathFunction ctx st nodes
          = ((checkForOperatorInFirstNode ctx st nodes).1,
             (checkForOperatorInFirstNode ctx st nodes).2.1)) ∧
      ((checkForOperatorInFirstNode ctx st nodes).2.2 = false →
        (checkForOperatorInFirstNode ctx st nodes).1 = nodes ∧
        (checkForOperatorInFirstNode ctx st nodes).2.1 = st ∧
        processMathFunction ctx st nodes
          = ((checkForOperatorInLastNode ctx st nodes).1,
             (checkForOperatorInLastNode ctx st nodes).2.1)) := by
  intro ctx st nodes h
  constructor
  · intro hq
    unfold processMathFunction
    simp only [spacingLoop_of_no_op h]
    simp only [Bool.false_eq_true, if_false, hq, if_true]
  · intro hq
    rcases checkForOperatorInFirstNode_cases ctx st nodes with ht | hid
    · rw [hq] at ht; cases ht
    · refine ⟨by rw [hid], by rw [hid], ?_⟩
      unfold processMathFunction
      simp only [spacingLoop_of_no_op h]
      simp only [Bool.false_eq_true, if_false, hid]

/-- C6 amended witness at the children of calc(1px+1px): the leading-sign
check qualifies, so processing equals its output and the trailing-sign check
never runs. -/
theorem claim_C6_amended_first_check_wins_witness :
    ([VNode.word ['1', 'p', 'x', '+', '1', 'p', 'x'] 5].any isOpNode) = false ∧
    (checkForOperatorInFirstNode ⟨false, 0⟩ ⟨false, []⟩
      [VNode.word ['1', 'p', 'x', '+', '1', 'p', 'x'] 5]).2.2 = true ∧
    processMathFunction ⟨false, 0⟩ ⟨false, []⟩
      [VNode.word ['1', 'p', 'x', '+', '1', 'p', 'x'] 5]
      = ((checkForOperatorInFirstNode ⟨false, 0⟩ ⟨false, []⟩
           [VNode.word ['1', 'p', 'x', '+', '1', 'p', 'x'] 5]).1,
         (checkForOperatorInFirstNode ⟨false, 0⟩ ⟨false, []⟩
           [VNode.word ['1', 'p', 'x', '+', '1', 'p', 'x'] 5]).2.1) :=
  ⟨rfl, rfl,
   (claim_C6_amended_first_check_wins ⟨false, 0⟩ ⟨false, []⟩
     [VNode.word ['1', 'p', 'x', '+', '1', 'p', 'x'] 5] rfl).1 rfl⟩

/-- C1 amended: for a matched math function with no standalone operator whose
first child is a standard-syntax word with a sign at index k greater than
zero and both neighbouring characters present and not spaces, check mode
reports exactly two diagnostics, expected-before anchored at the absolute
operator index (value offset plus word sourceIndex plus k) and expected-after
anchored one past it (the same sum plus one); fix mode inserts one space on
each side of the sign inside the word text and reports nothing. -/
theorem claim_C1_amended_glued_both_sides :
    ∀ (ctx : Ctx) (st : St) (nodes : List VNode) (v : Str) (si k : Nat)
      (c b a : Char),
      nodes.any isOpNode = false →
      nodes[0]? = some (VNode.word v si) →
      isStandardSyntaxValue v = true →
      searchOperator v = some k →
      k ≠ 0 →
      v[k]? = some c →
      v[k - 1]? = some b → b ≠ ' ' →
      v[k + 1]? = some a → a ≠ ' ' →
      (ctx.fix = false →
        processMathFunction ctx st nodes
          = (nodes,
             pushDiag
               (pushDiag st (Msg.expectedBefore [c])
                 (ctx.valueIndex + si + k) 1)
               (Msg.expectedAfter [c]) (ctx.valueIndex + si + k + 1) 1)) ∧
      (ctx.fix = true →
        processMathFunction ctx st nodes
          = (nodes.set 0 (VNode.word
               (insertCharAtIndex (insertCharAtIndex v (k + 1) ' ') k ' ') si),
             ⟨true, st.diags⟩)) := by
  intro ctx st nodes v si k c b a hany h0 hstd hsearch hk hc hb hbne ha hane
  have hcs : charAtSingleton v k = [c] := by
    unfold charAtSingleton
    rw [hc]
  have hfb : charIsPresentNonSpace v[k - 1]? = true := by
    rw [hb]
    unfold charIsPresentNonSpace
    simpa using hbne
  have hfa : charIsPresentNonSpace v[k + 1]? = true := by
    rw [ha]
    unfold charIsPresentNonSpace
    simpa using hane
  constructor
  · intro hfix
    have hfc : checkForOperatorInFirstNode ctx st nodes
        = (nodes,
           pushDiag
             (pushDiag st (Msg.expectedBefore [c]) (ctx.valueIndex + si + k) 1)
             (Msg.expectedAfter [c]) (ctx.valueIndex + si + k + 1) 1, true) := by
      unfold checkForOperatorInFirstNode
      simp only [h0, hstd, hsearch]
      rw [if_neg (by simp)]
      rw [if_neg hk]
      simp only [hfb, hfa, Bool.and_self, if_true]
      rw [if_neg (by simp [hfix])]
      simp [hcs]
    unfold processMathFunction
    simp only [spacingLoop_of_no_op hany]
    simp only [Bool.false_eq_true, if_false, hfc, if_true]
  · intro hfix
    have hfc : checkForOperatorInFirstNode ctx st nodes
        = (nodes.set 0 (VNode.word
             (insertCharAtIndex (insertCharAtIndex v (k + 1) ' ') k ' ') si),
           ⟨true, st.diags⟩, true) := by
      unfold checkForOperatorInFirstNode
      simp only [h0, hstd, hsearch]
      rw [if_neg (by simp)]
      rw [if_neg hk]
      simp only [hfb, hfa, Bool.and_self, if_true]
      rw [if_pos hfix]
    unfold processMathFunction
    simp only [spacingLoop_of_no_op hany]
    simp only [Bool.false_eq_true, if_false, hfc, if_true]

/-- C1 amended witness at the children of calc(1px+1px), value offset zero:
check mode yields the two diagnostics at indices eight and nine, and fix mode
rewrites the word to the characters of 1px + 1px. -/
theorem claim_C1_amended_glued_both_sides_witness :
    processMathFunction ⟨false, 0⟩ ⟨false, []⟩
      [VNode.word ['1', 'p', 'x', '+', '1', 'p', 'x'] 5]
      = ([VNode.word ['1', 'p', 'x', '+', '1', 'p', 'x'] 5],
         pushDiag
           (pushDiag ⟨false, []⟩ (Msg.expectedBefore ['+']) (0 + 5 + 3) 1)
           (Msg.expectedAfter ['+']) (0 + 5 + 3 + 1) 1) ∧
    processMathFunction ⟨true, 0⟩ ⟨false, []⟩
      [VNode.word ['1', 'p', 'x', '+', '1', 'p', 'x'] 5]
      = ([VNode.word ['1', 'p', 'x', '+', '1', 'p', 'x'] 5].set 0
           (VNode.word
             (insertCharAtIndex
               (insertCharAtIndex ['1', 'p', 'x', '+', '1', 'p', 'x'] (3 + 1) ' ')
               3 ' ') 5),
         ⟨true, []⟩) ∧
    insertCharAtIndex
        (insertCharAtIndex ['1', 'p', 'x', '+', '1', 'p', 'x'] (3 + 1) ' ') 3 ' '
      = ['1', 'p', 'x', ' ', '+', ' ', '1', 'p', 'x'] :=
  ⟨(claim_C1_amended_glued_both_sides ⟨false, 0⟩ ⟨false, []⟩
      [VNode.word ['1', 'p', 'x', '+', '1', 'p', 'x'] 5]
      ['1', 'p', 'x', '+', '1', 'p', 'x'] 5 3 '+' 'x' '1'
      rfl rfl rfl rfl (by decide) rfl rfl (by decide) rfl (by decide)).1 rfl,
   (claim_C1_amended_glued_both_sides ⟨true, 0⟩ ⟨false, []⟩
      [VNode.word ['1', 'p', 'x', '+', '1', 'p', 'x'] 5]
      ['1', 'p', 'x', '+', '1', 'p', 'x'] 5 3 '+' 'x' '1'
      rfl rfl rfl rfl (by decide) rfl rfl (by decide) rfl (by decide)).2 rfl,
   rfl⟩

lemma csao_diags_fix {ctx : Ctx} (hfix : ctx.fix = true) (st : St)
    (opValue : Str) (opSourceIndex : Nat) (sp : Str) (pos : Pos) :
    (checkSpaceAroundOperator ctx st opValue opSourceIndex sp pos).2.diags
      = st.diags := by
  unfold checkSpaceAroundOperator
  by_cases h0 : searchNewline sp = some 0
  · simp [h0]
  · rw [if_neg h0, if_pos hfix]

lemma sideCheck_diags_fix {ctx : Ctx} (hfix : ctx.fix = true) (opValue : Str)
    (opSourceIndex : Nat) (position : Pos) (nodes : List VNode) (st : St)
    (j : Option Nat) :
    (sideCheck ctx opValue opSourceIndex position nodes st j).2.diags
      = st.diags := by
  unfold sideCheck
  cases j with
  | none => rfl
  | some j =>
    cases hj : nodes[j]? with
    | none => simp only [hj]
    | some n =>
      cases n with
      | space sv ssi =>
        simp only [hj]
        by_cases hsp : (sv == [' ']) = true
        · simp only [hsp, if_true]
        · simp only [Bool.not_eq_true] at hsp
          simp only [hsp]
          simp only [Bool.false_eq_true, if_false]
          cases hcs : checkSpaceAroundOperator ctx st opValue opSourceIndex sv position with
          | mk fst snd =>
            have hd := csao_diags_fix hfix st opValue opSourceIndex sv position
            rw [hcs] at hd
            cases fst with
            | none => simpa using hd
            | some nv => simpa using hd
      | word v si => simp only [hj]
      | func v si ch => simp only [hj]
      | other v si => simp only [hj]

lemma spacingStep_diags_fix {ctx : Ctx} (hfix : ctx.fix = true)
    (nodes : List VNode) (st : St) (found : Bool) (i : Nat) :
    (spacingStep ctx nodes st found i).2.1.diags = st.diags := by
  unfold spacingStep
  cases hj : nodes[i]? with
  | none => rfl
  | some n =>
    cases n with
    | word v si =>
      simp only []
      by_cases hmem : v ∈ OPERATORS
      · have hc : OPERATORS.contains v = true := by simpa using hmem
        simp only [hc, if_true]
        rw [sideCheck_diags_fix hfix, sideCheck_diags_fix hfix]
      · have hc : OPERATORS.contains v = false := by simpa using hmem
        simp only [hc]
        simp
    | space v si => rfl
    | func v si ch => rfl
    | other v si => rfl

lemma spacingLoopAux_diags_fix {ctx : Ctx} (hfix : ctx.fix = true) :
    ∀ (k i : Nat) (nodes : List VNode) (st : St) (found : Bool),
      (spacingLoopAux ctx k i nodes st found).2.1.diags = st.diags := by
  intro k
  induction k with
  | zero => intro i nodes st found; rfl
  | succ k ih =>
    intro i nodes st found
    unfold spacingLoopAux
    rw [ih (i + 1)]
    exact spacingStep_diags_fix hfix nodes st found i

lemma checkForOperatorInFirstNode_diags_fix {ctx : Ctx} (hfix : ctx.fix = true)
    (st : St) (nodes : List VNode) :
    (checkForOperatorInFirstNode ctx st nodes).2.1.diags = st.diags := by
  unfold checkForOperatorInFirstNode
  repeat' split
  all_goals simp_all

lemma checkForOperatorInLastNode_diags_fix {ctx : Ctx} (hfix : ctx.fix = true)
    (st : St) (nodes : List VNode) :
    (checkForOperatorInLastNode ctx st nodes).2.1.diags = st.diags := by
  unfold checkForOperatorInLastNode
  repeat' split
  all_goals simp_all

lemma processMathFunction_diags_fix {ctx : Ctx} (hfix : ctx.fix = true)
    (st : St) (nodes : List VNode) :
    (processMathFunction ctx st nodes).2.diags = st.diags := by
  unfold processMathFunction
  simp only []
  split
  · exact spacingLoopAux_diags_fix hfix _ _ _ _ _
  · split
    · rw [checkForOperatorInFirstNode_diags_fix hfix]
      exact spacingLoopAux_diags_fix hfix _ _ _ _ _
    · rw [checkForOperatorInLastNode_diags_fix hfix,
        checkForOperatorInFirstNode_diags_fix hfix]
      exact spacingLoopAux_diags_fix hfix _ _ _ _ _

lemma walkListF_diags_fix {ctx : Ctx} (hfix : ctx.fix = true) :
    ∀ (fuel : Nat) (nodes : List VNode) (st : St),
      (walkListF ctx fuel nodes st).2.diags = st.diags := by
  intro fuel
  induction fuel with
  | zero => intro nodes st; rfl
  | succ fuel ih =>
    intro nodes st
    cases nodes with
    | nil => rfl
    | cons n rest =>
      cases n with
      | func name si children =>
        show (walkListF ctx (fuel + 1) (VNode.func name si children :: rest) st).2.diags
          = st.diags
        unfold walkListF
        simp only []
        rw [ih, ih]
        by_cases hm : isMathFunctionName name = true
        · simp only [hm, if_true]
          exact processMathFunction_diags_fix hfix st children
        · simp only [Bool.not_eq_true] at hm
          simp only [hm]
          simp
      | word v si =>
        unfold walkListF
        simp only []
        exact ih rest st
      | space v si =>
        unfold walkListF
        simp only []
        exact ih rest st
      | other v si =>
        unfold walkListF
        simp only []
        exact ih rest st

/-- C10: with fix mode on, the rule reports zero diagnostics for every
declaration: every violation path mutates and returns before any report
call, so a run either rewrites silently or does nothing. -/
theorem claim_C10_fix_mode_reports_nothing :
    ∀ (tokenize : Str → List VNode) (serializeTree : List VNode → Str)
      (d : Declaration),
      (processDecl true tokenize serializeTree d).diags = [] := by
  intro tokenize serializeTree d
  unfold processDecl
  split
  · rfl
  · split
    · rfl
    · have hw : (runOnParsedValue true d.valueIndex (tokenize d.value)).2.diags
          = [] := walkListF_diags_fix rfl _ _ _
      cases hr : runOnParsedValue true d.valueIndex (tokenize d.value) with
      | mk tree st =>
        rw [hr] at hw
        simp only []
        split
        · simpa using hw
        · simpa using hw

lemma csao_needsFix_check {ctx : Ctx} (hfix : ctx.fix = false) (st : St)
    (opValue : Str) (opSourceIndex : Nat) (sp : Str) (pos : Pos) :
    (checkSpaceAroundOperator ctx st opValue opSourceIndex sp pos).2.needsFix
      = st.needsFix := by
  unfold checkSpaceAroundOperator
  by_cases h0 : searchNewline sp = some 0
  · simp [h0]
  · rw [if_neg h0, if_neg (by simp [hfix])]
    rfl

lemma sideCheck_needsFix_check {ctx : Ctx} (hfix : ctx.fix = false)
    (opValue : Str) (opSourceIndex : Nat) (position : Pos)
    (nodes : List VNode) (st : St) (j : Option Nat) :
    (sideCheck ctx opValue opSourceIndex position nodes st j).2.needsFix
      = st.needsFix := by
  unfold sideCheck
  cases j with
  | none => rfl
  | some j =>
    cases hj : nodes[j]? with
    | none => simp only [hj]
    | some n =>
      cases n with
      | space sv ssi =>
        simp only [hj]
        by_cases hsp : (sv == [' ']) = true
        · simp only [hsp, if_true]
        · simp only [Bool.not_eq_true] at hsp
          simp only [hsp]
          simp only [Bool.false_eq_true, if_false]
          cases hcs : checkSpaceAroundOperator ctx st opValue opSourceIndex sv position with
          | mk fst snd =>
            have hd := csao_needsFix_check hfix st opValue opSourceIndex sv position
            rw [hcs] at hd
            cases fst with
            | none => simpa using hd
            | some nv => simpa using hd
      | word v si => simp only [hj]
      | func v si ch => simp only [hj]
      | other v si => simp only [hj]

lemma spacingStep_needsFix_check {ctx : Ctx} (hfix : ctx.fix = false)
    (nodes : List VNode) (st : St) (found : Bool) (i : Nat) :
    (spacingStep ctx nodes st found i).2.1.needsFix = st.needsFix := by
  unfold spacingStep
  cases hj : nodes[i]? with
  | none => rfl
  | some n =>
    cases n with
    | word v si =>
      simp only []
      by_cases hmem : v ∈ OPERATORS
      · have hc : OPERATORS.contains v = true := by simpa using hmem
        simp only [hc, if_true]
        rw [sideCheck_needsFix_check hfix, sideCheck_needsFix_check hfix]
      · have hc : OPERATORS.contains v = false := by simpa using hmem
        simp only [hc]
        simp
    | space v si => rfl
    | func v si ch => rfl
    | other v si => rfl

lemma spacingLoopAux_needsFix_check {ctx : Ctx} (hfix : ctx.fix = false) :
    ∀ (k i : Nat) (nodes : List VNode) (st : St) (found : Bool),
      (spacingLoopAux ctx k i nodes st found).2.1.needsFix = st.needsFix := by
  intro k
  induction k with
  | zero => intro i nodes st found; rfl
  | succ k ih =>
    intro i nodes st found
    unfold spacingLoopAux
    rw [ih (i + 1)]
    exact spacingStep_needsFix_check hfix nodes st found i

lemma checkForOperatorInFirstNode_needsFix_check {ctx : Ctx}
    (hfix : ctx.fix = false) (st : St) (nodes : List VNode) :
    (checkForOperatorInFirstNode ctx st nodes).2.1.needsFix = st.needsFix := by
  unfold checkForOperatorInFirstNode
  repeat' split
  all_goals simp_all [pushDiag]

lemma checkForOperatorInLastNode_needsFix_check {ctx : Ctx}
    (hfix : ctx.fix = false) (st : St) (nodes : List VNode) :
    (checkForOperatorInLastNode ctx st nodes).2.1.needsFix = st.needsFix := by
  unfold checkForOperatorInLastNode
  repeat' split
  all_goals simp_all [pushDiag]

lemma processMathFunction_needsFix_check {ctx : Ctx} (hfix : ctx.fix = false)
    (st : St) (nodes : List VNode) :
    (processMathFunction ctx st nodes).2.needsFix = st.needsFix := by
  unfold processMathFunction
  simp only []
  split
  · exact spacingLoopAux_needsFix_check hfix _ _ _ _ _
  · split
    · rw [checkForOperatorInFirstNode_needsFix_check hfix]
      exact spacingLoopAux_needsFix_check hfix _ _ _ _ _
    · rw [checkForOperatorInLastNode_needsFix_check hfix,
        checkForOperatorInFirstNode_needsFix_check hfix]
      exact spacingLoopAux_needsFix_check hfix _ _ _ _ _

lemma walkListF_needsFix_check {ctx : Ctx} (hfix : ctx.fix = false) :
    ∀ (fuel : Nat) (nodes : List VNode) (st : St),
      (walkListF ctx fuel nodes st).2.needsFix = st.needsFix := by
  intro fuel
  induction fuel with
  | zero => intro nodes st; rfl
  | succ fuel ih =>
    intro nodes st
    cases nodes with
    | nil => rfl
    | cons n rest =>
      cases n with
      | func name si children =>
        unfold walkListF
        simp only []
        rw [ih, ih]
        by_cases hm : isMathFunctionName name = true
        · simp only [hm, if_true]
          exact processMathFunction_needsFix_check hfix st children
        · simp only [Bool.not_eq_true] at hm
          simp only [hm]
          simp
      | word v si =>
        unfold walkListF
        simp only []
        exact ih rest st
      | space v si =>
        unfold walkListF
        simp only []
        exact ih rest st
      | other v si =>
        unfold walkListF
        simp only []
        exact ih rest st

/-- C9: with fix mode off, the rule leaves the declaration value text
unchanged and never writes it back: no code path sets the needsFix flag, so
the final outcome keeps the original value and reports only diagnostics. -/
theorem claim_C9_check_mode_never_rewrites :
    ∀ (tokenize : Str → List VNode) (serializeTree : List VNode → Str)
      (d : Declaration),
      (processDecl false tokenize serializeTree d).value = d.value ∧
      (processDecl false tokenize serializeTree d).rewritten = false := by
  intro tokenize serializeTree d
  unfold processDecl
  split
  · exact ⟨rfl, rfl⟩
  · split
    · exact ⟨rfl, rfl⟩
    · have hw : (runOnParsedValue false d.valueIndex (tokenize d.value)).2.needsFix
          = false := walkListF_needsFix_check rfl _ _ _
      cases hr : runOnParsedValue false d.valueIndex (tokenize d.value) with
      | mk tree st =>
        rw [hr] at hw
        simp only []
        split
        · simp_all
        · exact ⟨rfl, rfl⟩
